import Mathlib

/-!
Shallow embedding of `generate_definitions.py`: a batch script that reads a
CSV of (legislation term, legislation id, section text, case-law url,
paragraph id, paragraph text, case term) rows, groups the rows by
(legislation_term, legislation_id), builds one prompt per group, calls a
remote text-generation service once per group, and accumulates one result
record per group, checkpointing every 10 groups.

Optional CSV cells are modelled as `Option String` (`none` = a pandas NaN
cell).  The remote service is modelled as an oracle
`Prompt → Option (List ContentBlock)` where `none` means the call raised an
exception.
-/

namespace GenDef

/-- One record of the input table.  The two grouping keys are always
present; every other field may be missing (pandas NaN). -/
structure Row where
  legislation_term : String
  legislation_id : String
  section_text : Option String
  url : Option String
  para_id : Option String
  paragraphs : Option String
  case_term : Option String
deriving DecidableEq

/-- One record of the output table, mirroring the dict literal appended to
`results` in `main`. -/
structure ResultRecord where
  legislation_id : String
  legislation_term : String
  legislation_term_definition : String
deriving DecidableEq

/-- The five values substituted into the external prompt template by
`prompt_template.format(...)` in `process_group`.  The template file is
external input, so the prompt is modelled by its five substituted values. -/
structure Prompt where
  legislation_term : String
  legislation_id : String
  section_text : String
  case_law_paragraphs : String
  case_terms : String
deriving DecidableEq

/-- One content segment of the remote response: a text-typed block carrying
a string, or a block of any other type. -/
inductive ContentBlock where
  | text (s : String)
  | other
deriving DecidableEq

/-- Python `str.strip()`: remove leading and trailing whitespace. -/
def pyStrip (s : String) : String :=
  String.mk (((s.data.dropWhile Char.isWhitespace).reverse.dropWhile Char.isWhitespace).reverse)

/-- Rendering of a possibly-missing cell inside an f-string: a present
string renders as itself, a NaN cell renders as "nan". -/
def cellStr (o : Option String) : String := o.getD "nan"

/-- The test `pd.notna(paragraph) and paragraph.strip()` guarding a case-law
block in `format_case_law_paragraphs`: the cell is present and not
empty/whitespace-only. -/
def hasParagraph (r : Row) : Bool :=
  match r.paragraphs with
  | some p => pyStrip p ≠ ""
  | none => false

/-- The f-string block emitted for one qualifying row. -/
def caseLawBlock (r : Row) : String :=
  "Case Law: " ++ cellStr r.url ++ " (Paragraph: " ++ cellStr r.para_id ++ ")\n"
    ++ (r.paragraphs.getD "") ++ "\n"

/-- The `paragraphs_list` accumulated by the loop of
`format_case_law_paragraphs`: one block per row whose paragraph text is
present and not whitespace-only. -/
def caseLawBlocks : List Row → List String
  | [] => []
  | r :: rs =>
    if hasParagraph r then caseLawBlock r :: caseLawBlocks rs else caseLawBlocks rs

/-- The function `format_case_law_paragraphs`: join the blocks with the
separator. -/
def format_case_law_paragraphs (g : List Row) : String :=
  String.intercalate "\n---\n\n" (caseLawBlocks g)

/-- Helper retaining the first occurrence of each element, dropping later
duplicates: the order of pandas `Series.unique()`. -/
def dedupFirstAux {α : Type} [DecidableEq α] (seen : List α) : List α → List α
  | [] => []
  | x :: xs =>
    if x ∈ seen then dedupFirstAux seen xs
    else x :: dedupFirstAux (x :: seen) xs

/-- Distinct elements of a list in first-occurrence order, the order of
pandas `Series.unique()`. -/
def dedupFirst {α : Type} [DecidableEq α] (l : List α) : List α :=
  dedupFirstAux [] l

/-- The function `get_case_terms`: drop missing case terms, deduplicate
keeping first occurrences, join with ", ", and substitute the marker when
the list is empty. -/
def get_case_terms (g : List Row) : String :=
  let case_terms := dedupFirst (g.filterMap (fun r => r.case_term))
  if case_terms = [] then "None identified" else String.intercalate ", " case_terms

/-- The section-text extraction in `process_group`:
`group_df['section_text'].dropna().iloc[0]` when some value is present,
else the empty string. -/
def first_section_text (g : List Row) : String :=
  match g.filterMap (fun r => r.section_text) with
  | [] => ""
  | v :: _ => v

/-- The prompt built by `process_group`: the five values substituted into
the template. -/
def build_prompt (legislation_term legislation_id : String) (g : List Row) : Prompt :=
  { legislation_term := legislation_term
    legislation_id := legislation_id
    section_text := first_section_text g
    case_law_paragraphs := format_case_law_paragraphs g
    case_terms := get_case_terms g }

/-- The extraction loop of `call_claude_sonnet`: concatenate the text of
the text-typed content blocks in order. -/
def extract_text (blocks : List ContentBlock) : String :=
  blocks.foldl (fun acc b => match b with | ContentBlock.text s => acc ++ s | ContentBlock.other => acc) ""

/-- The function `call_claude_sonnet`: on a successful API call, strip the
concatenated text segments; an exception (`none`) propagates. -/
def call_claude_sonnet (api : Prompt → Option (List ContentBlock)) (p : Prompt) : Option String :=
  (api p).map (fun blocks => pyStrip (extract_text blocks))

/-- The function `process_group`: build the prompt and call the API; on an
exception return `None`. -/
def process_group (api : Prompt → Option (List ContentBlock))
    (legislation_term legislation_id : String) (g : List Row) : Option String :=
  call_claude_sonnet api (build_prompt legislation_term legislation_id g)

/-- The fixed placeholder stored when generation fails. -/
def errorPlaceholder : String := "Error: Could not generate definition"

/-- Python `definition if definition else "Error: ..."`: `None` and the
empty string are falsy, any other string is kept. -/
def definitionField : Option String → String
  | some s => if s = "" then errorPlaceholder else s
  | none => errorPlaceholder

/-- The grouping key of a row: the pair (legislation_term, legislation_id). -/
def rowKey (r : Row) : String × String := (r.legislation_term, r.legislation_id)

/-- Strict lexicographic comparison of char lists by code point, the
comparison Python uses on strings. -/
def lexLt : List Char → List Char → Bool
  | _, [] => false
  | [], _ :: _ => true
  | a :: as, b :: bs =>
    if a.toNat < b.toNat then true
    else if b.toNat < a.toNat then false
    else lexLt as bs

/-- Strict comparison of strings by code-point lexicographic order. -/
def strLt (a b : String) : Bool := lexLt a.data b.data

/-- Non-strict comparison of strings: not greater. -/
def strLe (a b : String) : Bool := ! lexLt b.data a.data

/-- Python tuple comparison on (term, id) keys: compare the first
components, break ties on the second. -/
def keyLe (a b : String × String) : Bool :=
  if strLt a.1 b.1 then true
  else if strLt b.1 a.1 then false
  else strLe a.2 b.2

/-- The key order as a relation, for `List.insertionSort`. -/
def keyLeP (a b : String × String) : Prop := keyLe a b = true

instance : DecidableRel keyLeP :=
  fun a b => inferInstanceAs (Decidable (keyLe a b = true))

/-- The distinct keys of the input rows in ascending sorted order: the key
order in which pandas `groupby` (with its default sorting) yields groups. -/
def sortedKeys (rows : List Row) : List (String × String) :=
  List.insertionSort keyLeP (dedupFirst (rows.map rowKey))

/-- The rows of one group: the input rows carrying the given key, in input
order. -/
def keyedRows (rows : List Row) (k : String × String) : List Row :=
  rows.filter (fun r => decide (rowKey r = k))

/-- The grouping `df.groupby(['legislation_term', 'legislation_id'])`:
group keys in ascending sorted order (pandas sorts keys by default), each
paired with the rows carrying that key in input order. -/
def groupByKey (rows : List Row) : List ((String × String) × List Row) :=
  (sortedKeys rows).map (fun k => (k, keyedRows rows k))

/-- The result record appended for one group in the loop of `main`. -/
def mkRecord (api : Prompt → Option (List ContentBlock))
    (g : (String × String) × List Row) : ResultRecord :=
  { legislation_id := g.1.2
    legislation_term := g.1.1
    legislation_term_definition := definitionField (process_group api g.1.1 g.1.2 g.2) }

/-- The processing loop of `main` over a list of groups, carrying the
`processed` counter and the `results` accumulator.  Returns the final
accumulated results and the list of checkpoint writes, each a pair of the
`processed` count at the write and the rows written. -/
def runGroups (api : Prompt → Option (List ContentBlock)) :
    List ((String × String) × List Row) → Nat → List ResultRecord →
      List ResultRecord × List (Nat × List ResultRecord)
  | [], _, results => (results, [])
  | g :: rest, processed, results =>
    let results' := results ++ [mkRecord api g]
    let next := runGroups api rest (processed + 1) results'
    if (processed + 1) % 10 = 0 then (next.1, (processed + 1, results') :: next.2)
    else next

/-- The function `main` after loading: group the rows, slice the group list
to its first element (`groups_list[:1]`), and run the loop.  The first
component is the final output table, the second the checkpoint writes. -/
def main (api : Prompt → Option (List ContentBlock)) (rows : List Row) :
    List ResultRecord × List (Nat × List ResultRecord) :=
  runGroups api ((groupByKey rows).take 1) 0 []

/-- The text encodings tried by the CSV loader. -/
inductive Encoding where
  | utf8
  | latin1
deriving DecidableEq

/-- The failure modes of one `pd.read_csv` attempt: a decode error (the one
exception type caught), or a missing input file (propagates). -/
inductive CsvError where
  | unicodeDecodeError
  | fileNotFound
deriving DecidableEq

/-- The CSV-loading block of `main`: read with UTF-8; if that raises a
decode error, read once more with Latin-1; any other outcome, and any
outcome of the second read, propagates. -/
def load_rows (read : Encoding → Except CsvError (List Row)) : Except CsvError (List Row) :=
  match read Encoding.utf8 with
  | Except.ok df => Except.ok df
  | Except.error CsvError.unicodeDecodeError => read Encoding.latin1
  | Except.error e => Except.error e

/-- An oracle on which every remote call raises an exception. -/
def failApi : Prompt → Option (List ContentBlock) := fun _ => none

/-- An oracle whose response carries a single non-text content segment. -/
def noTextApi : Prompt → Option (List ContentBlock) := fun _ => some [ContentBlock.other]

/-- A minimal concrete input row. -/
def sampleRow : Row := ⟨"t", "i", none, none, none, none, none⟩

/-- A concrete group list with two groups, for exercising the loop. -/
def sampleGroups : List ((String × String) × List Row) :=
  [(("b", "1"), []), (("a", "2"), [])]

/-- A concrete group list of ten groups, enough to reach a checkpoint. -/
def tenGroups : List ((String × String) × List Row) :=
  List.replicate 10 (("t", "i"), [])

/-- The record produced for a group with key ("t", "i") when the call
fails. -/
def failRec : ResultRecord := ⟨"i", "t", errorPlaceholder⟩

/-- A concrete group whose section-text cells are a missing one followed by
a non-empty one. -/
def sectionRows : List Row :=
  [⟨"t", "i", none, none, none, none, none⟩,
   ⟨"t", "i", some "S", none, none, none, none⟩]

/-- The example group of the spec: case terms negligence, negligence,
duty of care, missing. -/
def caseTermRows : List Row :=
  [⟨"t", "i", none, none, none, none, some "negligence"⟩,
   ⟨"t", "i", none, none, none, none, some "negligence"⟩,
   ⟨"t", "i", none, none, none, none, some "duty of care"⟩,
   ⟨"t", "i", none, none, none, none, none⟩]

/-- The example group of the spec: three rows of which the middle one has
empty paragraph text. -/
def paraRows : List Row :=
  [⟨"t", "i", none, some "u1", some "p1", some "first paragraph", none⟩,
   ⟨"t", "i", none, some "u2", some "p2", some "", none⟩,
   ⟨"t", "i", none, some "u3", some "p3", some "second paragraph", none⟩]

/-- A CSV reader failing with a decode error under both encodings. -/
def badReader : Encoding → Except CsvError (List Row) :=
  fun _ => Except.error CsvError.unicodeDecodeError

/-- Two rows whose keys arrive in descending order, so that input order and
sorted key order differ. -/
def unsortedRows : List Row :=
  [⟨"b", "1", none, none, none, none, none⟩,
   ⟨"a", "2", none, none, none, none, none⟩]

theorem lexLt_irrefl : ∀ l : List Char, lexLt l l = false
  | [] => rfl
  | a :: as => by simp [lexLt, lexLt_irrefl as]

theorem lexLt_asymm : ∀ l₁ l₂ : List Char, lexLt l₁ l₂ = true → lexLt l₂ l₁ = false := by
  intro l₁
  induction l₁ with
  | nil =>
    intro l₂ h
    cases l₂ with
    | nil => simp [lexLt] at h
    | cons b bs => simp [lexLt]
  | cons a as ih =>
    intro l₂ h
    cases l₂ with
    | nil => simp [lexLt] at h
    | cons b bs =>
      simp only [lexLt] at h ⊢
      by_cases hab : a.toNat < b.toNat
      · have hba : ¬ b.toNat < a.toNat := by omega
        simp [hab, hba]
      · by_cases hba : b.toNat < a.toNat
        · simp [hab, hba] at h
        · simp [hab, hba] at h ⊢
          exact ih bs h

theorem lexLt_eq_of_not_lt : ∀ l₁ l₂ : List Char,
    lexLt l₁ l₂ = false → lexLt l₂ l₁ = false → l₁ = l₂ := by
  intro l₁
  induction l₁ with
  | nil =>
    intro l₂ h₁ h₂
    cases l₂ with
    | nil => rfl
    | cons b bs => simp [lexLt] at h₁
  | cons a as ih =>
    intro l₂ h₁ h₂
    cases l₂ with
    | nil => simp [lexLt] at h₂
    | cons b bs =>
      simp only [lexLt] at h₁ h₂
      by_cases hab : a.toNat < b.toNat
      · simp [hab] at h₁
      · by_cases hba : b.toNat < a.toNat
        · simp [hab, hba] at h₂
        · have hEq : a = b := by
            have ht : a.toNat = b.toNat := by omega
            exact Char.ext (UInt32.toNat.inj ht)
          simp [hab, hba] at h₁ h₂
          rw [hEq, ih bs h₁ h₂]

theorem lexLt_trans : ∀ l₁ l₂ l₃ : List Char,
    lexLt l₁ l₂ = true → lexLt l₂ l₃ = true → lexLt l₁ l₃ = true := by
  intro l₁
  induction l₁ with
  | nil =>
    intro l₂ l₃ h₁ h₂
    cases l₂ with
    | nil => simp [lexLt] at h₁
    | cons b bs =>
      cases l₃ with
      | nil => simp [lexLt] at h₂
      | cons c cs => simp [lexLt]
  | cons a as ih =>
    intro l₂ l₃ h₁ h₂
    cases l₂ with
    | nil => simp [lexLt] at h₁
    | cons b bs =>
      cases l₃ with
      | nil => simp [lexLt] at h₂
      | cons c cs =>
        simp only [lexLt] at h₁ h₂ ⊢
        by_cases hab : a.toNat < b.toNat <;> by_cases hbc : b.toNat < c.toNat
        · simp [show a.toNat < c.toNat by omega]
        · by_cases hcb : c.toNat < b.toNat
          · simp [hbc, hcb] at h₂
          · simp [show a.toNat < c.toNat by omega]
        · by_cases hba : b.toNat < a.toNat
          · simp [hab, hba] at h₁
          · simp [show a.toNat < c.toNat by omega]
        · by_cases hba : b.toNat < a.toNat
          · simp [hab, hba] at h₁
          · by_cases hcb : c.toNat < b.toNat
            · simp [hbc, hcb] at h₂
            · have hac : ¬ a.toNat < c.toNat := by omega
              have hca : ¬ c.toNat < a.toNat := by omega
              simp [hab, hba, hbc, hcb, hac, hca] at h₁ h₂ ⊢
              exact ih bs cs h₁ h₂

theorem strEq_of_not_lt {a b : String} (h₁ : lexLt a.data b.data = false)
    (h₂ : lexLt b.data a.data = false) : a = b := by
  cases a with
  | mk da =>
    cases b with
    | mk db => exact congrArg String.mk (lexLt_eq_of_not_lt da db h₁ h₂)

theorem bool_eq_false_of_ne_true {b : Bool} (h : ¬ b = true) : b = false := by
  cases b
  · rfl
  · exact absurd rfl h

theorem keyLe_iff {a b : String × String} :
    keyLe a b = true ↔
      (lexLt a.1.data b.1.data = true ∨ (a.1 = b.1 ∧ lexLt b.2.data a.2.data = false)) := by
  unfold keyLe strLt strLe
  by_cases h₁ : lexLt a.1.data b.1.data = true
  · simp [h₁]
  · have h₁' : lexLt a.1.data b.1.data = false := bool_eq_false_of_ne_true h₁
    by_cases h₂ : lexLt b.1.data a.1.data = true
    · simp only [h₁', h₂, if_true, if_false, Bool.false_eq_true, false_or, cond_true]
      constructor
      · intro h
        simp at h
      · intro hc
        rw [hc.1] at h₂
        rw [lexLt_irrefl] at h₂
        simp at h₂
    · have h₂' : lexLt b.1.data a.1.data = false := bool_eq_false_of_ne_true h₂
      have hEq : a.1 = b.1 := strEq_of_not_lt h₁' h₂'
      simp [h₁', h₂', hEq, lexLt_irrefl]

theorem keyLe_refl (a : String × String) : keyLe a a = true := by
  rw [keyLe_iff]
  right
  exact ⟨rfl, lexLt_irrefl _⟩

theorem keyLe_total (a b : String × String) : keyLe a b = true ∨ keyLe b a = true := by
  rw [keyLe_iff, keyLe_iff]
  by_cases h₁ : lexLt a.1.data b.1.data = true
  · exact Or.inl (Or.inl h₁)
  · by_cases h₂ : lexLt b.1.data a.1.data = true
    · exact Or.inr (Or.inl h₂)
    · have hEq : a.1 = b.1 :=
        strEq_of_not_lt (bool_eq_false_of_ne_true h₁) (bool_eq_false_of_ne_true h₂)
      by_cases h₃ : lexLt b.2.data a.2.data = true
      · exact Or.inr (Or.inr ⟨hEq.symm, lexLt_asymm _ _ h₃⟩)
      · exact Or.inl (Or.inr ⟨hEq, bool_eq_false_of_ne_true h₃⟩)

theorem keyLe_trans (a b c : String × String) :
    keyLe a b = true → keyLe b c = true → keyLe a c = true := by
  rw [keyLe_iff, keyLe_iff, keyLe_iff]
  intro hab hbc
  rcases hab with hlt₁ | ⟨heq₁, hle₁⟩
  · rcases hbc with hlt₂ | ⟨heq₂, hle₂⟩
    · exact Or.inl (lexLt_trans _ _ _ hlt₁ hlt₂)
    · exact Or.inl (heq₂ ▸ hlt₁)
  · rcases hbc with hlt₂ | ⟨heq₂, hle₂⟩
    · exact Or.inl (heq₁ ▸ hlt₂)
    · refine Or.inr ⟨heq₁.trans heq₂, ?_⟩
      by_cases hca : lexLt c.2.data a.2.data = true
      · exfalso
        by_cases hba : lexLt a.2.data b.2.data = true
        · have : lexLt c.2.data b.2.data = true := lexLt_trans _ _ _ hca hba
          rw [this] at hle₂
          simp at hle₂
        · have hba' : a.2.data = b.2.data :=
            lexLt_eq_of_not_lt _ _ (bool_eq_false_of_ne_true hba) hle₁
          rw [hba'] at hca
          rw [hca] at hle₂
          simp at hle₂
      · exact bool_eq_false_of_ne_true hca

theorem mem_dedupFirstAux {α : Type} [DecidableEq α] (x : α) :
    ∀ (l seen : List α), x ∈ dedupFirstAux seen l ↔ (x ∈ l ∧ x ∉ seen) := by
  intro l
  induction l with
  | nil => intro seen; simp [dedupFirstAux]
  | cons a as ih =>
    intro seen
    by_cases h : a ∈ seen
    · rw [dedupFirstAux, if_pos h, ih]
      constructor
      · intro hx
        exact ⟨List.mem_cons_of_mem a hx.1, hx.2⟩
      · intro hx
        rcases List.mem_cons.mp hx.1 with hxa | hxas
        · exact absurd (hxa ▸ h) hx.2
        · exact ⟨hxas, hx.2⟩
    · rw [dedupFirstAux, if_neg h]
      constructor
      · intro hx
        rcases List.mem_cons.mp hx with hxa | hxs
        · exact ⟨hxa ▸ List.mem_cons_self a as, hxa ▸ h⟩
        · rcases (ih (a :: seen)).mp hxs with ⟨hmem, hns⟩
          refine ⟨List.mem_cons_of_mem a hmem, fun hc => hns (List.mem_cons_of_mem a hc)⟩
      · intro hx
        rcases List.mem_cons.mp hx.1 with hxa | hxas
        · exact hxa ▸ List.mem_cons_self a _
        · by_cases hxa : x = a
          · exact hxa ▸ List.mem_cons_self a _
          · refine List.mem_cons_of_mem a ((ih (a :: seen)).mpr ⟨hxas, ?_⟩)
            intro hc
            rcases List.mem_cons.mp hc with h1 | h2
            · exact hxa h1
            · exact hx.2 h2

theorem nodup_dedupFirstAux {α : Type} [DecidableEq α] :
    ∀ (l seen : List α), (dedupFirstAux seen l).Nodup := by
  intro l
  induction l with
  | nil => intro seen; simp [dedupFirstAux]
  | cons a as ih =>
    intro seen
    by_cases h : a ∈ seen
    · rw [dedupFirstAux, if_pos h]
      exact ih seen
    · rw [dedupFirstAux, if_neg h]
      refine List.nodup_cons.mpr ⟨?_, ih (a :: seen)⟩
      intro hc
      exact ((mem_dedupFirstAux a as (a :: seen)).mp hc).2 (List.mem_cons_self a seen)

theorem mem_dedupFirst {α : Type} [DecidableEq α] {x : α} {l : List α} :
    x ∈ dedupFirst l ↔ x ∈ l := by
  rw [dedupFirst, mem_dedupFirstAux]
  simp

theorem nodup_dedupFirst {α : Type} [DecidableEq α] (l : List α) : (dedupFirst l).Nodup :=
  nodup_dedupFirstAux l []

theorem mem_sortedKeys {rows : List Row} {k : String × String} :
    k ∈ sortedKeys rows ↔ k ∈ rows.map rowKey := by
  rw [sortedKeys, (List.perm_insertionSort keyLeP _).mem_iff, mem_dedupFirst]

theorem nodup_sortedKeys (rows : List Row) : (sortedKeys rows).Nodup :=
  ((List.perm_insertionSort keyLeP _).nodup_iff).mpr (nodup_dedupFirst _)

theorem sorted_sortedKeys (rows : List Row) : List.Sorted keyLeP (sortedKeys rows) := by
  haveI : IsTotal (String × String) keyLeP := ⟨fun a b => keyLe_total a b⟩
  haveI : IsTrans (String × String) keyLeP := ⟨fun a b c => keyLe_trans a b c⟩
  exact List.sorted_insertionSort keyLeP _

theorem mem_keyedRows {rows : List Row} {k : String × String} {r : Row} :
    r ∈ keyedRows rows k ↔ r ∈ rows ∧ rowKey r = k := by
  simp [keyedRows, List.mem_filter]

theorem mem_groupByKey {rows : List Row} {g : (String × String) × List Row} :
    g ∈ groupByKey rows ↔ g.1 ∈ sortedKeys rows ∧ g.2 = keyedRows rows g.1 := by
  rw [groupByKey]
  constructor
  · intro h
    rcases List.mem_map.mp h with ⟨k, hk, hEq⟩
    cases hEq
    exact ⟨hk, rfl⟩
  · intro h
    refine List.mem_map.mpr ⟨g.1, h.1, ?_⟩
    cases g with
    | mk k v => simp only at h ⊢; rw [h.2]

theorem groupByKey_map_fst (rows : List Row) :
    (groupByKey rows).map Prod.fst = sortedKeys rows := by
  rw [groupByKey, List.map_map]
  have h : (Prod.fst ∘ fun k : String × String => (k, keyedRows rows k)) = id := rfl
  rw [h, List.map_id]

theorem keyedRows_filter_ne {rows : List Row} {k k' : String × String} (h : k' ≠ k) :
    keyedRows (rows.filter (fun r => ! decide (rowKey r = k))) k' = keyedRows rows k' := by
  rw [keyedRows, keyedRows, List.filter_filter]
  apply List.filter_congr
  intro r _
  by_cases hr : rowKey r = k'
  · have hrk : rowKey r ≠ k := fun hc => h (hr ▸ hc ▸ rfl)
    simp [hr, hrk, h]
  · simp [hr]

theorem flatten_keyed_perm :
    ∀ (ks : List (String × String)) (rows : List Row), ks.Nodup →
      (∀ r ∈ rows, rowKey r ∈ ks) →
      ((ks.map (fun k => keyedRows rows k)).flatten).Perm rows := by
  intro ks
  induction ks with
  | nil =>
    intro rows _ hcov
    cases rows with
    | nil => simp
    | cons r rs => exact absurd (hcov r (List.mem_cons_self r rs)) (List.not_mem_nil _)
  | cons k ks ih =>
    intro rows hnd hcov
    have hknotin : k ∉ ks := (List.nodup_cons.mp hnd).1
    have hndks : ks.Nodup := (List.nodup_cons.mp hnd).2
    have hmapeq :
        ks.map (fun k' => keyedRows rows k') =
          ks.map (fun k' => keyedRows (rows.filter (fun r => ! decide (rowKey r = k))) k') := by
      apply List.map_congr_left
      intro k' hk'
      have hne : k' ≠ k := fun hc => hknotin (hc ▸ hk')
      exact (keyedRows_filter_ne hne).symm
    have hcov' : ∀ r ∈ rows.filter (fun r => ! decide (rowKey r = k)), rowKey r ∈ ks := by
      intro r hr
      rcases List.mem_filter.mp hr with ⟨hmem, hneq⟩
      have : rowKey r ≠ k := by simpa using hneq
      rcases List.mem_cons.mp (hcov r hmem) with h1 | h2
      · exact absurd h1 this
      · exact h2
    have hperm := ih (rows.filter (fun r => ! decide (rowKey r = k))) hndks hcov'
    rw [List.map_cons, List.flatten_cons, hmapeq]
    exact (List.Perm.append_left (keyedRows rows k) hperm).trans
      (List.filter_append_perm (fun r => decide (rowKey r = k)) rows)

theorem runGroups_fst (api : Prompt → Option (List ContentBlock)) :
    ∀ (gs : List ((String × String) × List Row)) (n : Nat) (acc : List ResultRecord),
      (runGroups api gs n acc).1 = acc ++ gs.map (mkRecord api) := by
  intro gs
  induction gs with
  | nil => intro n acc; simp [runGroups]
  | cons g rest ih =>
    intro n acc
    rw [runGroups]
    by_cases h : (n + 1) % 10 = 0
    · simp only [h, if_pos rfl, ih, List.map_cons]
      simp
    · rw [if_neg h, ih]
      simp

theorem runGroups_snd (api : Prompt → Option (List ContentBlock)) :
    ∀ (gs : List ((String × String) × List Row)) (n : Nat) (acc : List ResultRecord)
      (k : Nat) (snap : List ResultRecord),
      (k, snap) ∈ (runGroups api gs n acc).2 ↔
        ∃ i, i < gs.length ∧ k = n + i + 1 ∧ k % 10 = 0 ∧
          snap = acc ++ (gs.take (i + 1)).map (mkRecord api) := by
  intro gs
  induction gs with
  | nil =>
    intro n acc k snap
    simp [runGroups]
  | cons g rest ih =>
    intro n acc k snap
    rw [runGroups]
    by_cases h : (n + 1) % 10 = 0
    · rw [if_pos h]
      constructor
      · intro hm
        rcases List.mem_cons.mp hm with hEq | hm'
        · rcases Prod.mk.injEq .. ▸ hEq with ⟨hk, hsnap⟩
          refine ⟨0, by simp, by omega, by omega, ?_⟩
          simp [hsnap]
        · rcases (ih (n + 1) (acc ++ [mkRecord api g]) k snap).mp hm' with
            ⟨j, hj, hk, hmod, hsnap⟩
          refine ⟨j + 1, by simp; omega, by omega, hmod, ?_⟩
          rw [hsnap]
          simp
      · intro hex
        rcases hex with ⟨i, hi, hk, hmod, hsnap⟩
        cases i with
        | zero =>
          apply List.mem_cons.mpr
          left
          rw [Prod.mk.injEq]
          constructor
          · omega
          · simpa using hsnap
        | succ j =>
          apply List.mem_cons.mpr
          right
          apply (ih (n + 1) (acc ++ [mkRecord api g]) k snap).mpr
          refine ⟨j, by simp at hi; omega, by omega, hmod, ?_⟩
          rw [hsnap]
          simp
    · rw [if_neg h, ih]
      constructor
      · intro hex
        rcases hex with ⟨j, hj, hk, hmod, hsnap⟩
        refine ⟨j + 1, by simp; omega, by omega, hmod, ?_⟩
        rw [hsnap]
        simp
      · intro hex
        rcases hex with ⟨i, hi, hk, hmod, hsnap⟩
        cases i with
        | zero =>
          exfalso
          apply h
          have : k = n + 1 := by omega
          rw [this] at hmod
          exact hmod
        | succ j =>
          refine ⟨j, by simp at hi; omega, by omega, hmod, ?_⟩
          rw [hsnap]
          simp

theorem extract_text_aux (acc : String) :
    ∀ blocks : List ContentBlock, (∀ s, ContentBlock.text s ∉ blocks) →
      blocks.foldl
        (fun acc b => match b with | ContentBlock.text s => acc ++ s | ContentBlock.other => acc)
        acc = acc := by
  intro blocks
  induction blocks generalizing acc with
  | nil => intro _; rfl
  | cons b bs ih =>
    intro h
    cases b with
    | text s => exact absurd (List.mem_cons_self _ _) (fun hc => h s hc)
    | other =>
      rw [List.foldl_cons]
      exact ih acc (fun s hc => h s (List.mem_cons_of_mem _ hc))

theorem extract_text_of_no_text {blocks : List ContentBlock}
    (h : ∀ s, ContentBlock.text s ∉ blocks) : extract_text blocks = "" :=
  extract_text_aux "" blocks h

/-- C1: for every group in a processed group list whose remote generation
call raises an exception, the run does not abort: a Result Record whose
definition field is the fixed error placeholder string is still part of the
loop's output, and the loop produces a record for every processed group, so
processing continues with the next group. -/
theorem c1_failure_yields_placeholder (api : Prompt → Option (List ContentBlock))
    (gs : List ((String × String) × List Row)) (g : (String × String) × List Row)
    (hg : g ∈ gs) (hfail : process_group api g.1.1 g.1.2 g.2 = none) :
    (⟨g.1.2, g.1.1, errorPlaceholder⟩ : ResultRecord) ∈ (runGroups api gs 0 []).1 ∧
      (runGroups api gs 0 []).1.length = gs.length := by
  rw [runGroups_fst api gs 0 [], List.nil_append]
  constructor
  · have hrec : mkRecord api g = ⟨g.1.2, g.1.1, errorPlaceholder⟩ := by
      unfold mkRecord
      rw [hfail]
      rfl
    rw [← hrec]
    exact List.mem_map_of_mem _ hg
  · exact List.length_map _ _

/-- Witness for C1: a concrete always-failing oracle over two concrete
groups. -/
theorem c1_failure_yields_placeholder_witness :
    (⟨"1", "b", errorPlaceholder⟩ : ResultRecord) ∈ (runGroups failApi sampleGroups 0 []).1 ∧
      (runGroups failApi sampleGroups 0 []).1.length = 2 :=
  c1_failure_yields_placeholder failApi sampleGroups (("b", "1"), []) (by decide) rfl

/-- C2: the final output holds exactly one Result Record per processed
group, whether generation succeeds or fails, and its length equals the
number of groups actually processed, which under the first-group slice is
the minimum of 1 and the total group count. -/
theorem c2_one_record_per_group (api : Prompt → Option (List ContentBlock)) (rows : List Row) :
    (main api rows).1 = ((groupByKey rows).take 1).map (mkRecord api) ∧
      (main api rows).1.length = min 1 (groupByKey rows).length := by
  have h := runGroups_fst api ((groupByKey rows).take 1) 0 []
  rw [main, h, List.nil_append]
  exact ⟨rfl, by rw [List.length_map, List.length_take]⟩

/-- C3: grouping by (term, legislation identifier) is a true partition:
every input row lies in exactly one group, the concatenation of all group
rows is a permutation of the input row set, each group's rows are a
sublist of the input (so they retain input order), and two rows with the
same key never land in different groups. -/
theorem c3_grouping_partition (rows : List Row) :
    (∀ r ∈ rows, ∃! g, g ∈ groupByKey rows ∧ r ∈ g.2) ∧
      ((groupByKey rows).map Prod.snd).flatten.Perm rows ∧
      (∀ g ∈ groupByKey rows, g.2.Sublist rows) ∧
      (∀ g₁ ∈ groupByKey rows, ∀ g₂ ∈ groupByKey rows,
        ∀ r₁ ∈ g₁.2, ∀ r₂ ∈ g₂.2, rowKey r₁ = rowKey r₂ → g₁ = g₂) := by
  refine ⟨?_, ?_, ?_, ?_⟩
  · intro r hr
    refine ⟨(rowKey r, keyedRows rows (rowKey r)), ⟨?_, ?_⟩, ?_⟩
    · exact mem_groupByKey.mpr ⟨mem_sortedKeys.mpr (List.mem_map_of_mem rowKey hr), rfl⟩
    · exact mem_keyedRows.mpr ⟨hr, rfl⟩
    · intro y hy
      rcases mem_groupByKey.mp hy.1 with ⟨hk, hv⟩
      have hky : rowKey r = y.1 := (mem_keyedRows.mp (hv ▸ hy.2)).2
      cases y with
      | mk k v =>
        simp only at hky hv
        rw [Prod.mk.injEq]
        exact ⟨hky.symm, by rw [hv, ← hky]⟩
  · have hmap : (groupByKey rows).map Prod.snd =
        (sortedKeys rows).map (fun k => keyedRows rows k) := by
      rw [groupByKey, List.map_map]
      rfl
    rw [hmap]
    refine flatten_keyed_perm (sortedKeys rows) rows (nodup_sortedKeys rows) ?_
    intro r hr
    exact mem_sortedKeys.mpr (List.mem_map_of_mem rowKey hr)
  · intro g hg
    rcases mem_groupByKey.mp hg with ⟨_, hv⟩
    rw [hv, keyedRows]
    exact List.filter_sublist rows
  · intro g₁ h₁ g₂ h₂ r₁ hr₁ r₂ hr₂ hkey
    rcases mem_groupByKey.mp h₁ with ⟨hk₁, hv₁⟩
    rcases mem_groupByKey.mp h₂ with ⟨hk₂, hv₂⟩
    have e₁ : rowKey r₁ = g₁.1 := (mem_keyedRows.mp (hv₁ ▸ hr₁)).2
    have e₂ : rowKey r₂ = g₂.1 := (mem_keyedRows.mp (hv₂ ▸ hr₂)).2
    have ekey : g₁.1 = g₂.1 := by rw [← e₁, ← e₂, hkey]
    cases g₁ with
    | mk k₁ v₁ =>
      cases g₂ with
      | mk k₂ v₂ =>
        simp only at ekey hv₁ hv₂
        rw [Prod.mk.injEq]
        exact ⟨ekey, by rw [hv₁, hv₂, ekey]⟩

/-- Witness for C3: the single group of a one-row input is a sublist of the
input. -/
theorem c3_grouping_partition_witness :
    (keyedRows [sampleRow] ("t", "i")).Sublist [sampleRow] :=
  (c3_grouping_partition [sampleRow]).2.2.1
    (("t", "i"), keyedRows [sampleRow] ("t", "i")) (by decide)

/-- C4: for a group none of whose present section-text cells is the empty
string (which is how CSV-loaded data arrives, empty cells being parsed as
missing), the statutory text substituted into the prompt is the first
non-empty value of the section-text field across the group's rows, and the
empty string when all such values are missing. -/
theorem c4_section_text (term id : String) (g : List Row)
    (h : ∀ r ∈ g, r.section_text ≠ some "") :
    (build_prompt term id g).section_text =
      ((g.filterMap (fun r => r.section_text)).find? (fun s => decide (s ≠ ""))).getD "" := by
  have hbp : (build_prompt term id g).section_text = first_section_text g := rfl
  rw [hbp]
  rcases hfm : g.filterMap (fun r => r.section_text) with _ | ⟨v, vs⟩
  · simp [first_section_text, hfm]
  · have hv : v ≠ "" := by
      have hvmem : v ∈ g.filterMap (fun r => r.section_text) := by
        rw [hfm]
        exact List.mem_cons_self v vs
      rcases List.mem_filterMap.mp hvmem with ⟨r, hr, hrt⟩
      intro hc
      exact h r hr (hc ▸ hrt)
    simp [first_section_text, hfm, List.find?, hv]

/-- Witness for C4: a group whose first section-text cell is missing and
whose second is "S" substitutes "S". -/
theorem c4_section_text_witness :
    (build_prompt "t" "i" sectionRows).section_text = "S" := by
  rw [c4_section_text "t" "i" sectionRows (by decide)]
  rfl

/-- Counterexample to C5 as stated: on a response with zero text-typed
segments the Definition Generator does return the empty string, but the
corresponding Result Record's definition field is the error placeholder,
not the empty string, because the orchestrator's truthiness check treats
the empty string like a failure. -/
theorem c5_counterexample :
    call_claude_sonnet noTextApi (build_prompt "t" "i" [sampleRow]) = some "" ∧
      (main noTextApi [sampleRow]).1 =
        [{ legislation_id := "i", legislation_term := "t",
           legislation_term_definition := errorPlaceholder }] ∧
      errorPlaceholder ≠ "" :=
  ⟨rfl, by decide, by decide⟩

/-- C5 (amended): a remote response containing zero text-typed content
segments yields an empty-string definition from the Definition Generator
(no error is raised), but the corresponding Result Record's definition
field is the error placeholder rather than that empty string, since the
orchestrator replaces falsy definitions (both None and the empty string)
by the placeholder. -/
theorem c5_zero_text_segments (api : Prompt → Option (List ContentBlock))
    (rows : List Row) (g : (String × String) × List Row)
    (hg : g ∈ (groupByKey rows).take 1) (blocks : List ContentBlock)
    (hb : api (build_prompt g.1.1 g.1.2 g.2) = some blocks)
    (hnt : ∀ s, ContentBlock.text s ∉ blocks) :
    process_group api g.1.1 g.1.2 g.2 = some "" ∧
      (⟨g.1.2, g.1.1, errorPlaceholder⟩ : ResultRecord) ∈ (main api rows).1 := by
  have hpg : process_group api g.1.1 g.1.2 g.2 = some "" := by
    rw [process_group, call_claude_sonnet, hb]
    show some (pyStrip (extract_text blocks)) = some ""
    rw [extract_text_of_no_text hnt]
    rfl
  refine ⟨hpg, ?_⟩
  have h := runGroups_fst api ((groupByKey rows).take 1) 0 []
  have hrec : mkRecord api g = ⟨g.1.2, g.1.1, errorPlaceholder⟩ := by
    unfold mkRecord
    rw [hpg]
    rfl
  rw [main, h, List.nil_append, ← hrec]
  exact List.mem_map_of_mem _ hg

/-- Witness for the amended C5 at a concrete all-non-text response. -/
theorem c5_zero_text_segments_witness :
    process_group noTextApi "t" "i" [sampleRow] = some "" ∧
      (⟨"i", "t", errorPlaceholder⟩ : ResultRecord) ∈ (main noTextApi [sampleRow]).1 := by
  refine c5_zero_text_segments noTextApi [sampleRow] (("t", "i"), [sampleRow]) (by decide)
    [ContentBlock.other] rfl ?_
  intro s hs
  have h := List.mem_singleton.mp hs
  exact ContentBlock.noConfusion h

/-- C6: for a group none of whose present case-term cells is the empty
string (which is how CSV-loaded data arrives), the case-terms value
substituted into the prompt is the comma-separated join of the distinct,
non-empty case-term values in first-occurrence order, and the fixed marker
"None identified" when no such values exist. -/
theorem c6_case_terms (term id : String) (g : List Row)
    (h : ∀ r ∈ g, r.case_term ≠ some "") :
    (build_prompt term id g).case_terms =
      (if dedupFirst ((g.filterMap (fun r => r.case_term)).filter (fun s => decide (s ≠ ""))) = []
       then "None identified"
       else String.intercalate ", "
         (dedupFirst ((g.filterMap (fun r => r.case_term)).filter (fun s => decide (s ≠ ""))))) := by
  have hfe : (g.filterMap (fun r => r.case_term)).filter (fun s => decide (s ≠ "")) =
      g.filterMap (fun r => r.case_term) := by
    apply List.filter_eq_self.mpr
    intro s hs
    rcases List.mem_filterMap.mp hs with ⟨r, hr, hrt⟩
    simp only [decide_eq_true_eq]
    intro hc
    exact h r hr (hc ▸ hrt)
  rw [hfe]
  rfl

/-- Witness for C6 at the spec's example: case terms negligence,
negligence, duty of care, missing join to "negligence, duty of care". -/
theorem c6_case_terms_witness :
    (build_prompt "t" "i" caseTermRows).case_terms = "negligence, duty of care" := by
  rw [c6_case_terms "t" "i" caseTermRows (by decide)]
  rfl

/-- C7: the case-law section of the prompt is the blocks joined by the
distinct separator; the block list has exactly one block (source URL and
paragraph identifier followed by the paragraph text) per row whose
paragraph text is present and not whitespace-only, so its length is the
count of such rows; on the spec's example of 3 rows of which one has empty
paragraph text, exactly 2 blocks result. -/
theorem c7_case_law_blocks :
    (∀ (term id : String) (g : List Row),
      (build_prompt term id g).case_law_paragraphs =
        String.intercalate "\n---\n\n" (caseLawBlocks g)) ∧
      (∀ g : List Row, caseLawBlocks g = (g.filter hasParagraph).map caseLawBlock) ∧
      (∀ g : List Row, (caseLawBlocks g).length = g.countP hasParagraph) ∧
      paraRows.length = 3 ∧ (caseLawBlocks paraRows).length = 2 := by
  have hfil : ∀ g : List Row, caseLawBlocks g = (g.filter hasParagraph).map caseLawBlock := by
    intro g
    induction g with
    | nil => rfl
    | cons r rs ih =>
      by_cases h : hasParagraph r
      · simp [caseLawBlocks, List.filter_cons, h, ih]
      · simp [caseLawBlocks, List.filter_cons, h, ih]
  refine ⟨fun term id g => rfl, hfil, ?_, rfl, by decide⟩
  intro g
  rw [hfil, List.length_map, List.countP_eq_length_filter]

/-- C8: a checkpoint write happens exactly when the number of processed
groups is a positive multiple of 10, and the checkpoint contains exactly
the Result Records accumulated so far, so after processing 10 groups the
checkpoint has 10 rows; no checkpoint is written at any other point. -/
theorem c8_checkpoints (api : Prompt → Option (List ContentBlock))
    (gs : List ((String × String) × List Row)) (k : Nat) (snap : List ResultRecord) :
    ((k, snap) ∈ (runGroups api gs 0 []).2 ↔
      (k % 10 = 0 ∧ 1 ≤ k ∧ k ≤ gs.length ∧ snap = (gs.take k).map (mkRecord api))) ∧
      ((k, snap) ∈ (runGroups api gs 0 []).2 → snap.length = k) := by
  have h := runGroups_snd api gs 0 [] k snap
  constructor
  · rw [h]
    constructor
    · intro hx
      rcases hx with ⟨i, hi, hk, hmod, hsnap⟩
      refine ⟨hmod, by omega, by omega, ?_⟩
      rw [hsnap]
      have hki : k = i + 1 := by omega
      rw [hki]
      simp
    · intro hx
      rcases hx with ⟨hmod, h1, h2, hsnap⟩
      refine ⟨k - 1, by omega, by omega, hmod, ?_⟩
      rw [hsnap]
      have hk1 : k - 1 + 1 = k := by omega
      rw [hk1]
      simp
  · rw [h]
    intro hx
    rcases hx with ⟨i, hi, hk, hmod, hsnap⟩
    rw [hsnap]
    simp only [List.nil_append, List.length_map, List.length_take]
    omega

/-- Witness for C8: with ten concrete groups, a checkpoint is written at
group 10 with the ten accumulated records. -/
theorem c8_checkpoints_witness :
    (10, List.replicate 10 failRec) ∈ (runGroups failApi tenGroups 0 []).2 ∧
      (List.replicate 10 failRec).length = 10 := by
  have h := c8_checkpoints failApi tenGroups 10 (List.replicate 10 failRec)
  have hmem := h.1.mpr (by decide)
  exact ⟨hmem, h.2 hmem⟩

/-- C9: the Input Loader first attempts UTF-8; on a decode failure it
retries once with Latin-1; it propagates the error, aborting the run, when
both decodings fail or when the input file is missing. -/
theorem c9_encoding_fallback (read : Encoding → Except CsvError (List Row)) :
    (∀ t, read Encoding.utf8 = Except.ok t → load_rows read = Except.ok t) ∧
      (read Encoding.utf8 = Except.error CsvError.unicodeDecodeError →
        load_rows read = read Encoding.latin1) ∧
      (∀ e, read Encoding.utf8 = Except.error CsvError.unicodeDecodeError →
        read Encoding.latin1 = Except.error e → load_rows read = Except.error e) ∧
      (read Encoding.utf8 = Except.error CsvError.fileNotFound →
        load_rows read = Except.error CsvError.fileNotFound) := by
  refine ⟨?_, ?_, ?_, ?_⟩
  · intro t h
    simp [load_rows, h]
  · intro h
    simp [load_rows, h]
  · intro e h₁ h₂
    simp [load_rows, h₁, h₂]
  · intro h
    simp [load_rows, h]

/-- Witness for C9: a reader failing to decode under both encodings makes
the load fail fatally with the decode error. -/
theorem c9_encoding_fallback_witness :
    load_rows badReader = Except.error CsvError.unicodeDecodeError :=
  (c9_encoding_fallback badReader).2.2.1 CsvError.unicodeDecodeError rfl rfl

/-- C10: groups are iterated in ascending sorted order of the (term,
identifier) key, and under the first-group limit the single processed
group is the one whose key is smallest in that order, wherever its rows
appear in the input. -/
theorem c10_sorted_iteration (rows : List Row) :
    List.Sorted keyLeP ((groupByKey rows).map Prod.fst) ∧
      ∀ g₀, (groupByKey rows).take 1 = [g₀] →
        g₀ ∈ groupByKey rows ∧ ∀ g ∈ groupByKey rows, keyLeP g₀.1 g.1 := by
  have hs : List.Sorted keyLeP ((groupByKey rows).map Prod.fst) := by
    rw [groupByKey_map_fst]
    exact sorted_sortedKeys rows
  refine ⟨hs, ?_⟩
  intro g₀ h₀
  rcases hgk : groupByKey rows with _ | ⟨gh, gt⟩
  · rw [hgk] at h₀
    simp at h₀
  · rw [hgk] at h₀
    simp only [List.take_succ_cons, List.take_zero, List.cons.injEq, and_true] at h₀
    constructor
    · rw [← h₀]
      exact List.mem_cons_self gh gt
    · intro g hgmem
      rcases List.mem_cons.mp hgmem with hEq | htail
      · rw [hEq, ← h₀]
        exact keyLe_refl _
      · have hsorted := hs
        rw [hgk, List.map_cons] at hsorted
        rcases List.sorted_cons.mp hsorted with ⟨hall, _⟩
        rw [← h₀]
        exact hall g.1 (List.mem_map_of_mem Prod.fst htail)

/-- Witness for C10: on an input whose rows arrive with keys in descending
order, the processed group's key ("a", "2") is below the other key
("b", "1"). -/
theorem c10_sorted_iteration_witness :
    keyLeP ("a", "2") ("b", "1") := by
  have h := (c10_sorted_iteration unsortedRows).2
    (("a", "2"), keyedRows unsortedRows ("a", "2")) (by decide)
  exact h.2 (("b", "1"), keyedRows unsortedRows ("b", "1")) (by decide)

end GenDef
